import Mathlib

/-!
Verification of the poker decision engine (proj2): card and deck model
(deck.py), hand evaluator loading and input checking (eval.py), and the
Monte-Carlo scenario-sampling search (bot.py). Python objects are embedded
shallowly: the mutable node tree becomes an arena of records indexed by
position, random shuffling becomes an explicit permutation argument, the
wall-clock loop becomes an explicit iteration count, and exceptions become
Except values.
-/

namespace Poker

/-- Card (deck.py, class Card): an immutable value holding one integer;
equality and hashing are by that integer. -/
structure Card where
  value : Nat
deriving DecidableEq

/-- Errors raised by Card.get_value (deck.py lines 16-36). -/
inductive CardError where
  | badString
  | badRank
  | badSuit
  | badInt
deriving DecidableEq

/-- RANKS dict of deck.py lines 4-7, in insertion order. -/
def RANKS : List (Char × Nat) :=
  [('2', 0), ('3', 1), ('4', 2), ('5', 3), ('6', 4), ('7', 5), ('8', 6),
   ('9', 7), ('T', 8), ('J', 9), ('Q', 10), ('K', 11), ('A', 12)]

/-- SUITS dict of deck.py line 8. -/
def SUITS : List (Char × Nat) :=
  [('s', 0), ('h', 1), ('d', 2), ('c', 3)]

/-- Card.get_value on a string input (deck.py lines 21-28): a two-character
code is looked up in RANKS and SUITS and packed as rank * 4 + suit + 1. -/
def get_value_code (code : List Char) : Except CardError Nat :=
  if code.length ≠ 2 then .error .badString
  else
    match code with
    | [r, s] =>
      match List.lookup r RANKS with
      | none => .error .badRank
      | some ri =>
        match List.lookup s SUITS with
        | none => .error .badSuit
        | some si => .ok (ri * 4 + si + 1)
    | _ => .error .badString

/-- Card.get_value on an integer input (deck.py lines 29-32): accepted
exactly on the range 1..52. -/
def get_value_int (n : Int) : Except CardError Nat :=
  if 1 ≤ n ∧ n ≤ 52 then .ok n.toNat else .error .badInt

/-- Card.__str__ (deck.py lines 38-42): the two-character code printed for a
card value, read back off the RANKS and SUITS key lists. -/
def card_code (v : Nat) : List Char :=
  [(RANKS.map Prod.fst).getD ((v - 1) / 4) ' ',
   (SUITS.map Prod.fst).getD ((v - 1) % 4) ' ']

/-- Error raised by Deck.deal (deck.py line 77). -/
inductive DealError where
  | notEnough
deriving DecidableEq

/-- Deck.deal (deck.py lines 72-81): removes and returns the first n cards;
fails when fewer than n remain. The deck is its list of remaining cards. -/
def deal (n : Nat) (cards : List Card) : Except DealError (List Card × List Card) :=
  if n > cards.length then .error .notEnough
  else .ok (cards.take n, cards.drop n)

/-- Deck.copy (deck.py lines 83-89): a fresh deck holding newly built Card
objects with the same values, in the same order. -/
def copyDeck (cards : List Card) : List Card :=
  cards.map (fun c => Card.mk c.value)

/-- A sampled completion of the hidden information: the opponent's two cards
and the extra board cards (the pair built at bot.py line 64). -/
abbrev Scenario := List Card × List Card

/-- PokerBot.generate_scenario (bot.py lines 46-64): checks the caller's deck
size, then works on a shuffled copy; the shuffled order stands in for
random.shuffle and is passed explicitly. A deal on a too-small copy
propagates Deck.deal's error. -/
def generate_scenario (deckCards board shuffled : List Card) :
    Except DealError (Option Scenario) :=
  if deckCards.length < 2 then .ok none
  else
    match deal 2 shuffled with
    | .error e => .error e
    | .ok (opHand, rest) =>
      let needed : Int := 5 - (board.length : Int)
      if 0 < needed then
        match deal needed.toNat rest with
        | .error e => .error e
        | .ok (newBoard, _) => .ok (some (opHand, newBoard))
      else .ok (some (opHand, []))

/-- Errors of HandEvaluator (eval.py): a missing table file, a byte length
struct.unpack refuses, a wrong input size, or a table read out of range. -/
inductive EvalError where
  | fileNotFound
  | unpackSize
  | wrongCardCount
  | wrongHandSize
  | wrongBoardSize
  | tableIndex
deriving DecidableEq

/-- Little-endian unsigned 32-bit words read off a byte list four bytes at a
time, as struct.unpack with an I-format does (eval.py line 28). -/
def le32 : List Nat → List Nat
  | b0 :: b1 :: b2 :: b3 :: rest =>
    (b0 + 256 * (b1 + 256 * (b2 + 256 * b3))) :: le32 rest
  | _ => []

/-- HandEvaluator.__init__ (eval.py lines 19-28): fails when the file is
missing; struct.unpack of size / 4 whole words requires the byte length to
be an exact multiple of 4, else it fails; on success the whole file becomes
the in-memory rank table. The file is given as its byte list, none when
absent. -/
def handEvaluatorInit (file : Option (List Nat)) : Except EvalError (List Nat) :=
  match file with
  | none => .error .fileNotFound
  | some bytes =>
    if bytes.length % 4 = 0 then .ok (le32 bytes) else .error .unpackSize

/-- HAND_TYPES values (eval.py lines 7-17) as an enumeration. -/
inductive HandName where
  | HighCard
  | OnePair
  | TwoPair
  | ThreeOfAKind
  | Straight
  | Flush
  | FullHouse
  | FourOfAKind
  | StraightFlush
  | Unknown
deriving DecidableEq

/-- HAND_TYPES mapping of eval.py lines 7-17. -/
def HAND_TYPES : List (Nat × HandName) :=
  [(1, .HighCard), (2, .OnePair), (3, .TwoPair), (4, .ThreeOfAKind),
   (5, .Straight), (6, .Flush), (7, .FullHouse), (8, .FourOfAKind),
   (9, .StraightFlush)]

/-- The table walk of eval.py lines 42-44: each card value is added to the
running index and the table re-read there; a read out of range is an index
error. -/
def walkTable (table : List Nat) : Nat → List Card → Option Nat
  | p, [] => some p
  | p, c :: cs =>
    match table.get? (p + c.value) with
    | none => none
    | some q => walkTable table q cs

/-- HandEvaluator.evaluate_hand (eval.py lines 30-52): card values are taken
first, then the 7-card check, then the table walk from index 53; the result
packs the raw value, its low 12 bits as the rank, the high bits as the type
and the type's display name. -/
def evaluate_hand (table : List Nat) (cards : List Card) :
    Except EvalError (Nat × Nat × Nat × HandName) :=
  let vals := cards.map Card.value
  if vals.length ≠ 7 then .error .wrongCardCount
  else
    match walkTable table 53 cards with
    | none => .error .tableIndex
    | some p => .ok (p, p % 4096, p / 4096, (HAND_TYPES.lookup (p / 4096)).getD .Unknown)

/-- HandEvaluator.compare_hands (eval.py lines 54-71): both hands must hold
exactly 2 cards and the board exactly 5; hand strengths are compared by the
packed value. -/
def compare_hands (table : List Nat) (hand1 hand2 board : List Card) :
    Except EvalError (Int × (Nat × Nat × Nat × HandName) × (Nat × Nat × Nat × HandName)) :=
  if hand1.length ≠ 2 ∨ hand2.length ≠ 2 then .error .wrongHandSize
  else if board.length ≠ 5 then .error .wrongBoardSize
  else
    match evaluate_hand table (hand1 ++ board) with
    | .error e => .error e
    | .ok e1 =>
      match evaluate_hand table (hand2 ++ board) with
      | .error e => .error e
      | .ok e2 =>
        .ok (if e1.1 > e2.1 then 1 else if e2.1 > e1.1 then -1 else 0, e1, e2)

/-- Fingerprint of a scenario (bot.py line 87): frozensets of the opponent
cards and of the new board cards; keying children by frozenset equality is
modelled by using the two finite sets themselves as the key. -/
abbrev Fingerprint := Finset Card × Finset Card

/-- The fingerprint computed at bot.py line 87. -/
def fingerprint (s : Scenario) : Fingerprint :=
  (s.1.toFinset, s.2.toFinset)

/-- MCTSNode (bot.py lines 4-12) as a record in an arena of nodes indexed by
position: parent and children hold arena indices in place of object
references; children is the fingerprint-keyed dict in insertion order. -/
structure NodeData where
  hand : List Card
  board : List Card
  parent : Option Nat
  scenario : Option Scenario
  visits : Nat
  wins : Nat
  children : List (Fingerprint × Nat)
deriving DecidableEq

/-- Reads of the arena outside its range return this inert node; it is never
reachable in states the engine builds. -/
def blankNode : NodeData :=
  { hand := [], board := [], parent := none, scenario := none,
    visits := 0, wins := 0, children := [] }

/-- Read a node of the arena. -/
def getN (st : List NodeData) (i : Nat) : NodeData := st.getD i blankNode

/-- Rewrite one node of the arena in place. -/
def setN (st : List NodeData) (i : Nat) (f : NodeData → NodeData) : List NodeData :=
  st.set i (f (getN st i))

/-- MCTSNode.ucb1 (bot.py lines 14-27): top for an unvisited node; the root,
with no parent, scores by its exploitation term alone. -/
noncomputable def ucb1 (st : List NodeData) (c : ℝ) (i : Nat) : EReal :=
  if (getN st i).visits = 0 then ⊤
  else
    match (getN st i).parent with
    | none => (((getN st i).wins : ℝ) / ((getN st i).visits : ℝ) : ℝ)
    | some p =>
      ((((getN st i).wins : ℝ) / ((getN st i).visits : ℝ) +
        c * Real.sqrt (Real.log ((getN st p).visits : ℝ) / ((getN st i).visits : ℝ)) : ℝ) : EReal)

/-- Python's max over a nonempty sequence with a key function: later items
replace the running best only on a strictly larger key, so the first item
with the maximal key is kept. -/
noncomputable def maxBy (f : Nat → EReal) : Nat → List Nat → Nat
  | best, [] => best
  | best, x :: xs => maxBy f (if f best < f x then x else best) xs

/-- MCTSNode.select_child (bot.py lines 29-35): the child with the highest
UCB1 value; a node with no children returns itself. -/
noncomputable def select_child (st : List NodeData) (c : ℝ) (i : Nat) : Nat :=
  match (getN st i).children.map Prod.snd with
  | [] => i
  | j :: js => maxBy (ucb1 st c) j js

/-- PokerBot.select (bot.py lines 66-76) with explicit fuel standing for the
while loop; child indices strictly exceed their parent's, so fuel equal to
the arena size always suffices. -/
noncomputable def select (st : List NodeData) (c : ℝ) : Nat → Nat → Nat
  | 0, i => i
  | fuel + 1, i =>
    if (getN st i).children = [] then i
    else select st c fuel (select_child st c i)

/-- PokerBot.expand (bot.py lines 78-100) over the arena: the sampler's
output is passed in, none standing for generate_scenario returning None.
Returns the new arena and the index of the node descended into. -/
def expand (st : List NodeData) (i : Nat) (sc : Option Scenario) :
    List NodeData × Nat :=
  match sc with
  | none => (st, i)
  | some s =>
    match (getN st i).children.lookup (fingerprint s) with
    | some j => (st, j)
    | none =>
      (setN st i (fun n =>
        { n with children := n.children ++ [(fingerprint s, st.length)] }) ++
        [{ hand := (getN st i).hand, board := (getN st i).board, parent := some i,
           scenario := some s, visits := 0, wins := 0, children := [] }],
       st.length)

/-- Binary outcome of one comparison (bot.py lines 113-117): 1 exactly when
the evaluator says the player's hand strictly wins. -/
def simResult (cmp : List Card → List Card → List Card → Int)
    (hand board : List Card) (s : Scenario) : Nat :=
  if cmp hand s.1 (board ++ s.2) = 1 then 1 else 0

/-- PokerBot.simulate (bot.py lines 102-117): a node with no scenario (the
root) uses a freshly generated one, passed in as fresh; with none available
the result defaults to a loss. -/
def simulate (cmp : List Card → List Card → List Card → Int)
    (hand board : List Card) (nd : NodeData) (fresh : Option Scenario) : Nat :=
  match nd.scenario with
  | some s => simResult cmp hand board s
  | none =>
    match fresh with
    | some s => simResult cmp hand board s
    | none => 0

/-- PokerBot.backpropagate (bot.py lines 119-126) with fuel for the parent
walk; parent indices strictly decrease, so fuel equal to the arena size
always suffices. -/
def backpropagate : List NodeData → Nat → Nat → Nat → List NodeData
  | st, 0, _, _ => st
  | st, fuel + 1, i, r =>
    let st' := setN st i (fun n => { n with visits := n.visits + 1, wins := n.wins + r })
    match (getN st i).parent with
    | none => st'
    | some p => backpropagate st' fuel p r

/-- The arena indices on the parent walk from i towards the root, newest
first, as backpropagate visits them. -/
def chain (st : List NodeData) : Nat → Nat → List Nat
  | 0, _ => []
  | fuel + 1, i =>
    i :: (match (getN st i).parent with
          | none => []
          | some p => chain st fuel p)

/-- The exploration constant literal 1.414 used as the default at bot.py
lines 14 and 29. -/
noncomputable def defaultC : ℝ := 1.414

/-- One iteration of PokerBot.search's loop (bot.py lines 135-141): scExp and
scSim stand for the sampler outputs of the iteration's possible
generate_scenario calls. -/
noncomputable def searchIteration (cmp : List Card → List Card → List Card → Int)
    (hand board : List Card) (scExp scSim : Option Scenario)
    (st : List NodeData) : List NodeData :=
  let leaf := select st defaultC st.length 0
  let p := if 0 < (getN st leaf).visits then expand st leaf scExp else (st, leaf)
  backpropagate p.1 p.1.length p.2 (simulate cmp hand board (getN p.1 p.2) scSim)

/-- PokerBot.search's timed loop (bot.py lines 135-141): n is the number of
iterations the wall clock allowed; the oracle yields each iteration's
sampler outputs. -/
noncomputable def searchN (cmp : List Card → List Card → List Card → Int)
    (hand board : List Card) (oracle : Nat → Option Scenario × Option Scenario) :
    Nat → List NodeData → List NodeData
  | 0, st => st
  | n + 1, st =>
    searchN cmp hand board oracle n
      (searchIteration cmp hand board (oracle n).1 (oracle n).2 st)

/-- The final probability of bot.py line 144: root wins over root visits, 0
when the root was never visited. -/
def winProb (st : List NodeData) : ℚ :=
  if 0 < (getN st 0).visits
  then ((getN st 0).wins : ℚ) / ((getN st 0).visits : ℚ)
  else 0

/-- The two decisions make_decision can print and return (bot.py line 160). -/
inductive Decision where
  | STAY
  | FOLD
deriving DecidableEq

/-- PokerBot.make_decision (bot.py lines 150-163): runs the search and stays
exactly when the probability reaches the threshold. -/
noncomputable def make_decision (cmp : List Card → List Card → List Card → Int)
    (hand board : List Card) (oracle : Nat → Option Scenario × Option Scenario)
    (n : Nat) (threshold : ℚ) (st : List NodeData) : Decision :=
  if threshold ≤ winProb (searchN cmp hand board oracle n st) then .STAY else .FOLD

/-- The arena at PokerBot construction (bot.py line 44): the lone root,
holding the player's hand and the current board. -/
def initState (hand board : List Card) : List NodeData :=
  [{ hand := hand, board := board, parent := none, scenario := none,
     visits := 0, wins := 0, children := [] }]

/-! ## Helper lemmas -/

/-- Every group of four bytes becomes one word. -/
theorem le32_length : ∀ bytes : List Nat, (le32 bytes).length = bytes.length / 4
  | [] => by simp [le32]
  | [_] => by simp [le32]
  | [_, _] => by simp [le32]
  | [_, _, _] => by simp [le32]
  | b0 :: b1 :: b2 :: b3 :: rest => by
    have ih := le32_length rest
    simp only [le32, List.length_cons, ih]
    omega

/-- Words decoded from bytes stay below 2 ^ 32. -/
theorem le32_lt : ∀ bytes : List Nat, (∀ b ∈ bytes, b < 256) →
    ∀ v ∈ le32 bytes, v < 2 ^ 32
  | [], _, v, hv => by simp [le32] at hv
  | [_], _, v, hv => by simp [le32] at hv
  | [_, _], _, v, hv => by simp [le32] at hv
  | [_, _, _], _, v, hv => by simp [le32] at hv
  | b0 :: b1 :: b2 :: b3 :: rest, hb, v, hv => by
    simp only [le32, List.mem_cons] at hv
    rcases hv with rfl | hv
    · have h0 := hb b0 (by simp)
      have h1 := hb b1 (by simp)
      have h2 := hb b2 (by simp)
      have h3 := hb b3 (by simp)
      have : (2 : Nat) ^ 32 = 4294967296 := by norm_num
      omega
    · exact le32_lt rest (fun b h => hb b (by simp [h])) v hv

/-! ## C3: evaluator construction and table loading -/

/-- C3: construction fails when the backing file is missing; loading fails
exactly when the byte length is not a multiple of 4; otherwise the whole
file is loaded as unsigned 32-bit entries, one per four bytes. -/
theorem C3_evaluator_load :
    (handEvaluatorInit none = .error .fileNotFound) ∧
    (∀ bytes : List Nat, bytes.length % 4 ≠ 0 →
      handEvaluatorInit (some bytes) = .error .unpackSize) ∧
    (∀ bytes : List Nat, bytes.length % 4 = 0 →
      ∃ table, handEvaluatorInit (some bytes) = .ok table ∧
        table.length = bytes.length / 4 ∧
        ((∀ b ∈ bytes, b < 256) → ∀ v ∈ table, v < 2 ^ 32)) := by
  refine ⟨rfl, ?_, ?_⟩
  · intro bytes h
    simp [handEvaluatorInit, h]
  · intro bytes h
    exact ⟨le32 bytes, by simp [handEvaluatorInit, h], le32_length bytes, le32_lt bytes⟩

/-- Witness for C3 on concrete byte lists: a 3-byte file is refused and a
4-byte file loads into one word. -/
theorem C3_evaluator_load_witness :
    handEvaluatorInit (some [7, 1, 2]) = .error .unpackSize ∧
    (∃ table, handEvaluatorInit (some [7, 0, 0, 0]) = .ok table ∧
      table.length = ([7, 0, 0, 0] : List Nat).length / 4 ∧
      ((∀ b ∈ [7, 0, 0, 0], b < 256) → ∀ v ∈ table, v < 2 ^ 32)) :=
  ⟨C3_evaluator_load.2.1 [7, 1, 2] (by decide),
   C3_evaluator_load.2.2 [7, 0, 0, 0] (by decide)⟩

/-! ## C7: evaluator input-size enforcement -/

/-- C7: evaluating a hand whose card count is not exactly 7 fails with the
size error, and comparing fails when either hand's length is not 2 or the
board's length is not 5. -/
theorem C7_size_enforcement (table : List Nat) :
    (∀ cards : List Card, cards.length ≠ 7 →
      evaluate_hand table cards = .error .wrongCardCount) ∧
    (∀ hand1 hand2 board : List Card, hand1.length ≠ 2 ∨ hand2.length ≠ 2 →
      compare_hands table hand1 hand2 board = .error .wrongHandSize) ∧
    (∀ hand1 hand2 board : List Card, hand1.length = 2 → hand2.length = 2 →
      board.length ≠ 5 → compare_hands table hand1 hand2 board = .error .wrongBoardSize) := by
  refine ⟨?_, ?_, ?_⟩
  · intro cards h
    simp [evaluate_hand, h]
  · intro hand1 hand2 board h
    simp only [compare_hands]
    rw [if_pos h]
  · intro hand1 hand2 board h1 h2 hb
    simp only [compare_hands]
    rw [if_neg (by simp [h1, h2]), if_pos hb]

/-- Witness for C7 on concrete inputs: 6 cards are refused, a 1-card hand is
refused, and a 4-card board is refused. -/
theorem C7_size_enforcement_witness :
    evaluate_hand [] [Card.mk 1, Card.mk 2, Card.mk 3, Card.mk 4, Card.mk 5, Card.mk 6] =
      .error .wrongCardCount ∧
    compare_hands [] [Card.mk 1] [Card.mk 2, Card.mk 3] [] = .error .wrongHandSize ∧
    compare_hands [] [Card.mk 1, Card.mk 2] [Card.mk 3, Card.mk 4]
      [Card.mk 5, Card.mk 6, Card.mk 7, Card.mk 8] = .error .wrongBoardSize :=
  ⟨(C7_size_enforcement []).1 _ (by decide),
   (C7_size_enforcement []).2.1 _ _ [] (by decide),
   (C7_size_enforcement []).2.2 _ _ _ (by decide) (by decide) (by decide)⟩

/-! ## C8: card construction and round-trip -/

/-- C8: every valid two-character code builds the value rank index times 4
plus suit index plus 1, always in 1..52, and the value's printed code builds
the same card back; codes of the wrong length, unknown ranks or suits, and
integers outside 1..52 are all rejected. -/
theorem C8_card_roundtrip :
    (∀ r ri s si, (r, ri) ∈ RANKS → (s, si) ∈ SUITS →
      get_value_code [r, s] = .ok (ri * 4 + si + 1) ∧
      1 ≤ ri * 4 + si + 1 ∧ ri * 4 + si + 1 ≤ 52 ∧
      get_value_code (card_code (ri * 4 + si + 1)) = .ok (ri * 4 + si + 1)) ∧
    (∀ code : List Char, code.length ≠ 2 → get_value_code code = .error .badString) ∧
    (∀ r s, List.lookup r RANKS = none → get_value_code [r, s] = .error .badRank) ∧
    (∀ r s ri, List.lookup r RANKS = some ri → List.lookup s SUITS = none →
      get_value_code [r, s] = .error .badSuit) ∧
    (∀ n : Int, ¬(1 ≤ n ∧ n ≤ 52) → get_value_int n = .error .badInt) := by
  refine ⟨?_, ?_, ?_, ?_, ?_⟩
  · intro r ri s si hr hs
    fin_cases hr <;> fin_cases hs <;> exact ⟨rfl, by norm_num, by norm_num, rfl⟩
  · intro code h
    match code, h with
    | [], _ => rfl
    | [_], _ => rfl
    | _ :: _ :: _ :: _, _ => rfl
    | [_, _], h => exact absurd rfl h
  · intro r s h
    simp [get_value_code, h]
  · intro r s ri hr hs
    simp [get_value_code, hr, hs]
  · intro n h
    simp [get_value_int, h]

/-- Witness for C8 on concrete codes: the ace of spades has value 49 and
round-trips, an unknown rank and an out-of-range integer are rejected. -/
theorem C8_card_roundtrip_witness :
    get_value_code ['A', 's'] = .ok 49 ∧
    get_value_code (card_code 49) = .ok 49 ∧
    get_value_code ['x', 's'] = .error .badRank ∧
    get_value_int 53 = .error .badInt := by
  have h := C8_card_roundtrip
  have hAs := h.1 'A' 12 's' 0 (by decide) (by decide)
  exact ⟨hAs.1, hAs.2.2.2, h.2.2.1 'x' 's' (by decide), h.2.2.2.2 53 (by decide)⟩

/-! ## C1: the scenario sampler -/

/-- With enough cards present a deal takes the prefix. -/
theorem deal_ok {n : Nat} {cards : List Card} (h : n ≤ cards.length) :
    deal n cards = .ok (cards.take n, cards.drop n) := by
  simp [deal, Nat.not_lt.mpr h]

/-- With too few cards a deal errors. -/
theorem deal_err {n : Nat} {cards : List Card} (h : cards.length < n) :
    deal n cards = .error .notEnough := by
  simp [deal, h]

/-- Counterexample to C1 as stated: with exactly 2 cards remaining and an
empty board the sampler neither returns none nor a sampled pair; the second
deal runs out of cards and Deck.deal's not-enough error propagates. -/
theorem C1_cex :
    generate_scenario [Card.mk 1, Card.mk 2] [] [Card.mk 1, Card.mk 2] =
      .error DealError.notEnough := by
  rfl

/-- C1 (amended): the sampler works on a fresh copy that equals the caller's
deck, which it never touches; it returns none exactly when fewer than 2
cards remain; when the deck also holds the 5 - len(board) extra cards the
result is an opponent hand of exactly 2 cards plus exactly the missing board
cards, drawn without replacement from the remaining deck; with at least 2
but not enough for the board, the inner deal fails. -/
theorem C1_sampler (deckCards board shuffled : List Card)
    (hperm : shuffled.Perm deckCards) :
    (copyDeck deckCards = deckCards) ∧
    (generate_scenario deckCards board shuffled = .ok none ↔ deckCards.length < 2) ∧
    (2 + (5 - board.length) ≤ deckCards.length →
      ∃ opHand newBoard,
        generate_scenario deckCards board shuffled = .ok (some (opHand, newBoard)) ∧
        opHand.length = 2 ∧ newBoard.length = 5 - board.length ∧
        (deckCards.Nodup → (opHand ++ newBoard).Nodup) ∧
        (∀ c ∈ opHand ++ newBoard, c ∈ deckCards)) ∧
    (2 ≤ deckCards.length → deckCards.length < 2 + (5 - board.length) →
      generate_scenario deckCards board shuffled = .error .notEnough) := by
  have hlen : shuffled.length = deckCards.length := hperm.length_eq
  have hcopy : copyDeck deckCards = deckCards := by
    have h : ∀ c : Card, Card.mk c.value = c := fun c => rfl
    simp [copyDeck, h]
  refine ⟨hcopy, ?_, ?_, ?_⟩
  · constructor
    · intro h
      by_contra hge
      push_neg at hge
      have hd1 : deal 2 shuffled = .ok (shuffled.take 2, shuffled.drop 2) :=
        deal_ok (by omega)
      have hnlt : ¬ deckCards.length < 2 := by omega
      simp only [generate_scenario, hnlt, if_false, hd1] at h
      split at h
      · rcases hd : deal (5 - board.length) (shuffled.drop 2) with e | pr <;>
          simp [hd] at h
      · simp at h
    · intro h
      simp [generate_scenario, h]
  · intro hL
    have hnlt : ¬ deckCards.length < 2 := by omega
    have hd1 : deal 2 shuffled = .ok (shuffled.take 2, shuffled.drop 2) :=
      deal_ok (by omega)
    have hneed : (5 - (board.length : Int)).toNat = 5 - board.length := by omega
    by_cases hb : (0 : Int) < 5 - (board.length : Int)
    · have hd2 : deal (5 - board.length) (shuffled.drop 2) =
          .ok ((shuffled.drop 2).take (5 - board.length),
               (shuffled.drop 2).drop (5 - board.length)) :=
        deal_ok (by simp only [List.length_drop]; omega)
      refine ⟨shuffled.take 2, (shuffled.drop 2).take (5 - board.length), ?_, ?_, ?_, ?_, ?_⟩
      · simp only [generate_scenario, hnlt, if_false, hd1, hb, if_true, hneed, hd2]
      · simp only [List.length_take]
        omega
      · simp only [List.length_take, List.length_drop]
        omega
      · intro hnd
        have hsn : shuffled.Nodup := hperm.nodup_iff.mpr hnd
        have hta : shuffled.take 2 ++ (shuffled.drop 2).take (5 - board.length) =
            shuffled.take (2 + (5 - board.length)) := (List.take_add shuffled 2 _).symm
        rw [hta]
        exact hsn.sublist (List.take_sublist _ _)
      · intro c hc
        apply hperm.mem_iff.mp
        rcases List.mem_append.mp hc with h | h
        · exact List.mem_of_mem_take h
        · exact List.mem_of_mem_drop (List.mem_of_mem_take h)
    · refine ⟨shuffled.take 2, [], ?_, ?_, ?_, ?_, ?_⟩
      · simp only [generate_scenario, hnlt, if_false, hd1, hb, if_false]
      · simp only [List.length_take]
        omega
      · simp only [List.length_nil]
        omega
      · intro hnd
        have hsn : shuffled.Nodup := hperm.nodup_iff.mpr hnd
        simp only [List.append_nil]
        exact hsn.sublist (List.take_sublist _ _)
      · intro c hc
        simp only [List.append_nil] at hc
        exact hperm.mem_iff.mp (List.mem_of_mem_take hc)
  · intro h2 hlt
    have hb : (0 : Int) < 5 - (board.length : Int) := by omega
    have hnlt : ¬ deckCards.length < 2 := by omega
    have hd1 : deal 2 shuffled = .ok (shuffled.take 2, shuffled.drop 2) :=
      deal_ok (by omega)
    have hneed : (5 - (board.length : Int)).toNat = 5 - board.length := by omega
    have hd2 : deal (5 - board.length) (shuffled.drop 2) = .error .notEnough :=
      deal_err (by simp only [List.length_drop]; omega)
    simp only [generate_scenario, hnlt, if_false, hd1, hb, if_true, hneed, hd2]

/-- Witness for C1 on a concrete 7-card deck with an empty board: the
amended statement's conclusions at that input. -/
theorem C1_sampler_witness :
    (copyDeck [Card.mk 1, Card.mk 2, Card.mk 3, Card.mk 4, Card.mk 5, Card.mk 6, Card.mk 7] =
      [Card.mk 1, Card.mk 2, Card.mk 3, Card.mk 4, Card.mk 5, Card.mk 6, Card.mk 7]) ∧
    (∃ opHand newBoard,
      generate_scenario
        [Card.mk 1, Card.mk 2, Card.mk 3, Card.mk 4, Card.mk 5, Card.mk 6, Card.mk 7] []
        [Card.mk 1, Card.mk 2, Card.mk 3, Card.mk 4, Card.mk 5, Card.mk 6, Card.mk 7] =
        .ok (some (opHand, newBoard)) ∧
      opHand.length = 2 ∧ newBoard.length = 5 - ([] : List Card).length ∧
      (([Card.mk 1, Card.mk 2, Card.mk 3, Card.mk 4, Card.mk 5, Card.mk 6,
          Card.mk 7] : List Card).Nodup → (opHand ++ newBoard).Nodup) ∧
      (∀ c ∈ opHand ++ newBoard,
        c ∈ [Card.mk 1, Card.mk 2, Card.mk 3, Card.mk 4, Card.mk 5, Card.mk 6, Card.mk 7])) := by
  have h := C1_sampler
    [Card.mk 1, Card.mk 2, Card.mk 3, Card.mk 4, Card.mk 5, Card.mk 6, Card.mk 7] []
    [Card.mk 1, Card.mk 2, Card.mk 3, Card.mk 4, Card.mk 5, Card.mk 6, Card.mk 7]
    (List.Perm.refl _)
  exact ⟨h.1, h.2.2.1 (by decide)⟩

/-! ## C2: probability and threshold decision -/

/-- C2: after the timed loop the probability is root wins over root visits
(0 when the root was never visited) and the decision is STAY exactly when
that probability reaches the threshold, else FOLD. -/
theorem C2_decision (cmp : List Card → List Card → List Card → Int)
    (hand board : List Card) (oracle : Nat → Option Scenario × Option Scenario)
    (n : Nat) (threshold : ℚ) (st : List NodeData) :
    (make_decision cmp hand board oracle n threshold st = .STAY ↔
      threshold ≤ winProb (searchN cmp hand board oracle n st)) ∧
    (make_decision cmp hand board oracle n threshold st = .FOLD ↔
      winProb (searchN cmp hand board oracle n st) < threshold) ∧
    (0 < (getN (searchN cmp hand board oracle n st) 0).visits →
      winProb (searchN cmp hand board oracle n st) =
        ((getN (searchN cmp hand board oracle n st) 0).wins : ℚ) /
          ((getN (searchN cmp hand board oracle n st) 0).visits : ℚ)) ∧
    ((getN (searchN cmp hand board oracle n st) 0).visits = 0 →
      winProb (searchN cmp hand board oracle n st) = 0) := by
  refine ⟨?_, ?_, ?_, ?_⟩
  · unfold make_decision
    split
    · simp_all
    · simp_all
  · unfold make_decision
    split
    · simp_all
    · simp_all
  · intro h
    simp [winProb, h]
  · intro h
    simp [winProb, h]

/-- Witness for C2 at a concrete root with 7 wins out of 10 visits: with
threshold one half the decision is STAY, with threshold four fifths it is
FOLD, matching the spec's fixture. -/
theorem C2_decision_witness :
    make_decision (fun _ _ _ => 0) [] [] (fun _ => (none, none)) 0 (1 / 2)
      [{ hand := [], board := [], parent := none, scenario := none,
         visits := 10, wins := 7, children := [] }] = .STAY ∧
    make_decision (fun _ _ _ => 0) [] [] (fun _ => (none, none)) 0 (4 / 5)
      [{ hand := [], board := [], parent := none, scenario := none,
         visits := 10, wins := 7, children := [] }] = .FOLD := by
  constructor
  · exact (C2_decision (fun _ _ _ => 0) [] [] (fun _ => (none, none)) 0 (1 / 2) _).1.mpr
      (by norm_num [searchN, winProb, getN])
  · exact (C2_decision (fun _ _ _ => 0) [] [] (fun _ => (none, none)) 0 (4 / 5) _).2.1.mpr
      (by norm_num [searchN, winProb, getN])

/-! ## C4: expansion and scenario deduplication -/

/-- Assoc-list lookups only return stored pairs. -/
theorem lookup_mem {α β : Type} [BEq α] [LawfulBEq α] :
    ∀ (l : List (α × β)) (k : α) (v : β), l.lookup k = some v → (k, v) ∈ l
  | [], _, _, h => by simp [List.lookup] at h
  | (a, b) :: rest, k, v, h => by
    simp only [List.lookup] at h
    cases hk : k == a with
    | true =>
      rw [hk] at h
      simp only [Option.some.injEq] at h
      have hka : k = a := eq_of_beq hk
      subst hka
      subst h
      exact List.mem_cons_self _ _
    | false =>
      rw [hk] at h
      exact List.mem_cons_of_mem _ (lookup_mem rest k v h)

/-- Rewriting a slot keeps the arena's size. -/
theorem length_setN (st : List NodeData) (i : Nat) (f : NodeData → NodeData) :
    (setN st i f).length = st.length := by
  simp [setN]

/-- Reading the rewritten slot back. -/
theorem getN_setN_self {st : List NodeData} {i : Nat} (f : NodeData → NodeData)
    (h : i < st.length) : getN (setN st i f) i = f (getN st i) := by
  simp [getN, setN, List.getD_eq_getElem?_getD, List.getElem?_set_eq_of_lt _ h]

/-- Reading any other slot after a rewrite. -/
theorem getN_setN_ne {st : List NodeData} {i j : Nat} (f : NodeData → NodeData)
    (h : i ≠ j) : getN (setN st i f) j = getN st j := by
  simp [getN, setN, List.getD_eq_getElem?_getD, List.getElem?_set_ne h]

/-- Reading the appended node. -/
theorem getN_append_self (a : List NodeData) (c : NodeData) :
    getN (a ++ [c]) a.length = c := by
  simp [getN, List.getD_eq_getElem?_getD, List.getElem?_append_right (le_refl a.length)]

/-- Reading below an appended node. -/
theorem getN_append_lt (a : List NodeData) (c : NodeData) {j : Nat} (h : j < a.length) :
    getN (a ++ [c]) j = getN a j := by
  simp [getN, List.getD_eq_getElem?_getD, List.getElem?_append_left h]

/-- C4: expansion with no sampled scenario returns the leaf and leaves the
arena unchanged; fingerprints ignore the order of the sampled cards; a
fingerprint already present among the leaf's children returns that child and
leaves the arena unchanged; a fresh fingerprint appends exactly one new
child holding the scenario under the leaf and returns it. -/
theorem C4_expand (st : List NodeData) (i : Nat) :
    (expand st i none = (st, i)) ∧
    (∀ s t : Scenario, s.1.Perm t.1 → s.2.Perm t.2 → fingerprint s = fingerprint t) ∧
    (∀ s j, (getN st i).children.lookup (fingerprint s) = some j →
      expand st i (some s) = (st, j)) ∧
    (∀ s, (getN st i).children.lookup (fingerprint s) = none → i < st.length →
      (expand st i (some s)).2 = st.length ∧
      (expand st i (some s)).1.length = st.length + 1 ∧
      getN (expand st i (some s)).1 st.length =
        { hand := (getN st i).hand, board := (getN st i).board, parent := some i,
          scenario := some s, visits := 0, wins := 0, children := [] } ∧
      getN (expand st i (some s)).1 i =
        { getN st i with
          children := (getN st i).children ++ [(fingerprint s, st.length)] } ∧
      (∀ j < st.length, j ≠ i → getN (expand st i (some s)).1 j = getN st j)) := by
  refine ⟨rfl, ?_, ?_, ?_⟩
  · intro s t h1 h2
    simp [fingerprint, List.toFinset_eq_of_perm _ _ h1, List.toFinset_eq_of_perm _ _ h2]
  · intro s j h
    simp [expand, h]
  · intro s h hi
    set f : NodeData → NodeData := fun n =>
      { n with children := n.children ++ [(fingerprint s, st.length)] } with hf
    have hlen : (setN st i f).length = st.length := length_setN st i f
    have hexp : expand st i (some s) =
        (setN st i f ++
          [{ hand := (getN st i).hand, board := (getN st i).board, parent := some i,
             scenario := some s, visits := 0, wins := 0, children := [] }], st.length) := by
      simp [expand, h, hf]
    refine ⟨by rw [hexp], ?_, ?_, ?_, ?_⟩
    · rw [hexp]
      simp [hlen]
    · rw [hexp]
      have := getN_append_self (setN st i f)
        { hand := (getN st i).hand, board := (getN st i).board, parent := some i,
          scenario := some s, visits := 0, wins := 0, children := [] }
      rw [hlen] at this
      exact this
    · rw [hexp]
      rw [getN_append_lt _ _ (show i < (setN st i f).length by rw [hlen]; exact hi)]
      exact getN_setN_self f hi
    · intro j hj hne
      rw [hexp]
      rw [getN_append_lt _ _ (show j < (setN st i f).length by rw [hlen]; exact hj)]
      exact getN_setN_ne f (Ne.symm hne)

/-- The one-visit root arena used by the C4 witness. -/
def oneVisitRoot : List NodeData :=
  [{ hand := [], board := [], parent := none, scenario := none,
     visits := 1, wins := 0, children := [] }]

/-- Witness for C4 at a concrete one-node arena: a fresh scenario of the
three-card deck is attached as child 1 and a permuted resample maps to the
same fingerprint. -/
theorem C4_expand_witness :
    (expand oneVisitRoot 0 none = (oneVisitRoot, 0)) ∧
    fingerprint ([Card.mk 1, Card.mk 2], [Card.mk 3]) =
      fingerprint ([Card.mk 2, Card.mk 1], [Card.mk 3]) ∧
    (expand oneVisitRoot 0 (some ([Card.mk 1, Card.mk 2], [Card.mk 3]))).2 = 1 := by
  have h := C4_expand oneVisitRoot 0
  refine ⟨h.1, h.2.1 _ _ (by decide) (List.Perm.refl _), ?_⟩
  exact (h.2.2.2 ([Card.mk 1, Card.mk 2], [Card.mk 3]) (by rfl) (by decide)).1

/-! ## C6: expansion happens only on visited leaves -/

/-- C6: an iteration expands only a leaf already visited; a zero-visit leaf
is simulated and backpropagated as it stands, with the arena untouched by
the expansion stage. -/
theorem C6_expand_gate (cmp : List Card → List Card → List Card → Int)
    (hand board : List Card) (scExp scSim : Option Scenario) (st : List NodeData) :
    ((getN st (select st defaultC st.length 0)).visits = 0 →
      searchIteration cmp hand board scExp scSim st =
        backpropagate st st.length (select st defaultC st.length 0)
          (simulate cmp hand board (getN st (select st defaultC st.length 0)) scSim)) ∧
    (0 < (getN st (select st defaultC st.length 0)).visits →
      searchIteration cmp hand board scExp scSim st =
        backpropagate (expand st (select st defaultC st.length 0) scExp).1
          (expand st (select st defaultC st.length 0) scExp).1.length
          (expand st (select st defaultC st.length 0) scExp).2
          (simulate cmp hand board
            (getN (expand st (select st defaultC st.length 0) scExp).1
              (expand st (select st defaultC st.length 0) scExp).2) scSim)) := by
  constructor
  · intro h
    simp only [searchIteration]
    rw [if_neg (by omega)]
  · intro h
    simp only [searchIteration]
    rw [if_pos h]

/-- Witness for C6 at the freshly built one-node arena: the unvisited root is
simulated and backpropagated directly, skipping expansion. -/
theorem C6_expand_gate_witness :
    searchIteration (fun _ _ _ => 1) [] [] (some ([Card.mk 1, Card.mk 2], [])) none
      (initState [] []) =
      backpropagate (initState [] []) (initState [] []).length
        (select (initState [] []) defaultC (initState [] []).length 0)
        (simulate (fun _ _ _ => 1) [] []
          (getN (initState [] []) (select (initState [] []) defaultC
            (initState [] []).length 0)) none) :=
  (C6_expand_gate (fun _ _ _ => 1) [] [] (some ([Card.mk 1, Card.mk 2], [])) none
    (initState [] [])).1 rfl

/-! ## C5: UCB1 selection -/

/-- Python's max yields one of its inputs. -/
theorem maxBy_mem (f : Nat → EReal) : ∀ (best : Nat) (xs : List Nat),
    maxBy f best xs ∈ best :: xs
  | best, [] => by simp [maxBy]
  | best, x :: xs => by
    have ih := maxBy_mem f (if f best < f x then x else best) xs
    rw [maxBy]
    rcases List.mem_cons.mp ih with h | h
    · rw [h]
      split <;> simp
    · exact List.mem_cons_of_mem _ (List.mem_cons_of_mem _ h)

/-- Python's max yields a maximal key. -/
theorem maxBy_le (f : Nat → EReal) : ∀ (best : Nat) (xs : List Nat),
    ∀ j ∈ best :: xs, f j ≤ f (maxBy f best xs)
  | best, [], j, hj => by
    simp at hj
    simp [maxBy, hj]
  | best, x :: xs, j, hj => by
    have hb : f best ≤ f (if f best < f x then x else best) := by
      split <;> [exact le_of_lt (by assumption); exact le_refl _]
    have hx : f x ≤ f (if f best < f x then x else best) := by
      split <;> [exact le_refl _; exact le_of_not_lt (by assumption)]
    have ih := maxBy_le f (if f best < f x then x else best) xs
    rw [maxBy]
    rcases List.mem_cons.mp hj with rfl | hj2
    · exact le_trans hb (ih _ (List.mem_cons_self _ _))
    · rcases List.mem_cons.mp hj2 with rfl | hj3
      · exact le_trans hx (ih _ (List.mem_cons_self _ _))
      · exact ih j (List.mem_cons_of_mem _ hj3)

/-- With a nonempty child list select_child is Python's max over it. -/
theorem select_child_eq {st : List NodeData} {c : ℝ} {i j : Nat} {js : List Nat}
    (hm : (getN st i).children.map Prod.snd = j :: js) :
    select_child st c i = maxBy (ucb1 st c) j js := by
  unfold select_child
  rw [hm]

/-- A node with children hands selection one of its child indices. -/
theorem select_child_mem {st : List NodeData} {c : ℝ} {i : Nat}
    (h : (getN st i).children ≠ []) :
    select_child st c i ∈ (getN st i).children.map Prod.snd := by
  cases hm : (getN st i).children.map Prod.snd with
  | nil => exact absurd (List.map_eq_nil_iff.mp hm) h
  | cons j js =>
    rw [select_child_eq hm]
    exact maxBy_mem (ucb1 st c) j js

/-- The selected child maximizes UCB1 among the children. -/
theorem select_child_le {st : List NodeData} {c : ℝ} {i : Nat}
    (h : (getN st i).children ≠ []) :
    ∀ j ∈ (getN st i).children.map Prod.snd, ucb1 st c j ≤ ucb1 st c (select_child st c i) := by
  intro j hj
  cases hm : (getN st i).children.map Prod.snd with
  | nil => exact absurd (List.map_eq_nil_iff.mp hm) h
  | cons k ks =>
    rw [select_child_eq hm]
    exact maxBy_le (ucb1 st c) k ks j (hm ▸ hj)

/-- Out-of-range reads are the inert node. -/
theorem getN_out {st : List NodeData} {i : Nat} (h : st.length ≤ i) :
    getN st i = blankNode := by
  simp [getN, List.getD_eq_getElem?_getD, List.getElem?_eq_none h]

/-- With fuel at least the arena size, descent ends at a childless node
whenever child indices strictly exceed their parents'. -/
theorem select_no_children {st : List NodeData} {c : ℝ}
    (hW : ∀ i < st.length, ∀ kv ∈ (getN st i).children, i < kv.2) :
    ∀ (fuel i : Nat), st.length ≤ i + fuel →
      (getN st (select st c fuel i)).children = []
  | 0, i, hfi => by
    rw [select, getN_out (by omega)]
    rfl
  | fuel + 1, i, hfi => by
    rw [select]
    split
    · assumption
    · rename_i hne
      by_cases hi : i < st.length
      · have hm := @select_child_mem st c i hne
        rcases List.mem_map.mp hm with ⟨kv, hkv, hkveq⟩
        have := hW i hi kv hkv
        exact select_no_children hW fuel (select_child st c i) (by omega)
      · rw [getN_out (by omega)] at hne
        exact absurd rfl hne

/-- C5: selection returns a childless node and repeats best-child steps until
one is reached; the chosen child attains the maximal UCB1 score; an
unvisited node scores top and an unvisited child is therefore preferred; the
parentless root scores its win rate alone, and a visited child scores win
rate plus the exploration term. -/
theorem C5_selection (st : List NodeData) (c : ℝ) :
    (∀ i fuel, (getN st i).children = [] → select st c (fuel + 1) i = i) ∧
    (∀ i fuel, (getN st i).children ≠ [] →
      select st c (fuel + 1) i = select st c fuel (select_child st c i)) ∧
    (∀ i, (getN st i).children ≠ [] →
      select_child st c i ∈ (getN st i).children.map Prod.snd ∧
      ∀ j ∈ (getN st i).children.map Prod.snd,
        ucb1 st c j ≤ ucb1 st c (select_child st c i)) ∧
    (∀ i, (getN st i).visits = 0 → ucb1 st c i = ⊤) ∧
    (∀ i, (getN st i).children ≠ [] →
      (∃ j ∈ (getN st i).children.map Prod.snd, (getN st j).visits = 0) →
      ucb1 st c (select_child st c i) = ⊤) ∧
    (∀ i, (getN st i).parent = none → 0 < (getN st i).visits →
      ucb1 st c i = (((getN st i).wins : ℝ) / ((getN st i).visits : ℝ) : ℝ)) ∧
    (∀ i p, (getN st i).parent = some p → 0 < (getN st i).visits →
      ucb1 st c i = ((((getN st i).wins : ℝ) / ((getN st i).visits : ℝ) +
        c * Real.sqrt (Real.log ((getN st p).visits : ℝ) /
          ((getN st i).visits : ℝ)) : ℝ) : EReal)) ∧
    ((∀ i < st.length, ∀ kv ∈ (getN st i).children, i < kv.2) →
      ∀ i, (getN st (select st c st.length i)).children = []) := by
  refine ⟨?_, ?_, ?_, ?_, ?_, ?_, ?_, ?_⟩
  · intro i fuel h
    rw [select, if_pos h]
  · intro i fuel h
    rw [select, if_neg h]
  · intro i h
    exact ⟨select_child_mem h, select_child_le h⟩
  · intro i h
    simp [ucb1, h]
  · intro i h hex
    rcases hex with ⟨j, hj, hv⟩
    have htop : ucb1 st c j = ⊤ := by simp [ucb1, hv]
    exact top_le_iff.mp (htop ▸ select_child_le h j hj)
  · intro i hp hv
    simp [ucb1, Nat.pos_iff_ne_zero.mp hv, hp]
  · intro i p hp hv
    simp [ucb1, Nat.pos_iff_ne_zero.mp hv, hp]
  · intro hW i
    exact select_no_children hW st.length i (by omega)

/-- The two-child arena used by the C5 witness: a visited root over two
unvisited children. -/
def twoChildRoot : List NodeData :=
  [{ hand := [], board := [], parent := none, scenario := none,
     visits := 1, wins := 1,
     children := [((∅, ∅), 1), (({Card.mk 1}, ∅), 2)] },
   { hand := [], board := [], parent := some 0, scenario := some ([], []),
     visits := 0, wins := 0, children := [] },
   { hand := [], board := [], parent := some 0, scenario := some ([Card.mk 1], []),
     visits := 0, wins := 0, children := [] }]

/-- Witness for C5 at the two-child arena: a childless node returns itself,
the chosen child of the root is one of its children and scores top since an
unvisited child exists, and descent from the root ends childless. -/
theorem C5_selection_witness :
    select twoChildRoot 1 4 1 = 1 ∧
    select_child twoChildRoot 1 0 ∈ (getN twoChildRoot 0).children.map Prod.snd ∧
    ucb1 twoChildRoot 1 (select_child twoChildRoot 1 0) = ⊤ ∧
    (getN twoChildRoot (select twoChildRoot 1 twoChildRoot.length 0)).children = [] := by
  have h := C5_selection twoChildRoot 1
  refine ⟨h.1 1 3 (by rfl), (h.2.2.1 0 (by simp [twoChildRoot, getN])).1, ?_, ?_⟩
  · exact h.2.2.2.2.1 0 (by simp [twoChildRoot, getN])
      ⟨1, by simp [twoChildRoot, getN], by rfl⟩
  · exact h.2.2.2.2.2.2.2 (by decide) 0

/-! ## C10: backpropagation frame -/

/-- The counter update applied at every node on the walk. -/
def bump (r : Nat) (n : NodeData) : NodeData :=
  { n with visits := n.visits + 1, wins := n.wins + r }

/-- Rewriting counters keeps every parent link. -/
theorem parent_setN_bump (st : List NodeData) (k : Nat) (r : Nat) :
    ∀ j, (getN (setN st k (bump r)) j).parent = (getN st j).parent := by
  intro j
  by_cases h : k = j
  · subst h
    by_cases hk : k < st.length
    · rw [getN_setN_self _ hk]
      rfl
    · rw [setN, List.set_eq_of_length_le (by omega)]
  · rw [getN_setN_ne _ h]

/-- Walk step at a parentless node. -/
theorem chain_succ_none {st : List NodeData} {fuel i : Nat}
    (h : (getN st i).parent = none) : chain st (fuel + 1) i = [i] := by
  simp only [chain, h]

/-- Walk step at a node with a parent. -/
theorem chain_succ_some {st : List NodeData} {fuel i p : Nat}
    (h : (getN st i).parent = some p) : chain st (fuel + 1) i = i :: chain st fuel p := by
  simp only [chain, h]

/-- Backpropagation step at a parentless node. -/
theorem backprop_succ_none {st : List NodeData} {fuel i r : Nat}
    (h : (getN st i).parent = none) :
    backpropagate st (fuel + 1) i r = setN st i (bump r) := by
  simp only [backpropagate, h]
  rfl

/-- Backpropagation step at a node with a parent. -/
theorem backprop_succ_some {st : List NodeData} {fuel i p r : Nat}
    (h : (getN st i).parent = some p) :
    backpropagate st (fuel + 1) i r = backpropagate (setN st i (bump r)) fuel p r := by
  simp only [backpropagate, h]
  rfl

/-- The walk is insensitive to states agreeing on parent links. -/
theorem chain_congr {st st' : List NodeData}
    (h : ∀ j, (getN st' j).parent = (getN st j).parent) :
    ∀ (fuel i : Nat), chain st' fuel i = chain st fuel i
  | 0, i => rfl
  | fuel + 1, i => by
    cases hp : (getN st i).parent with
    | none => rw [chain_succ_none ((h i).trans hp), chain_succ_none hp]
    | some p =>
      rw [chain_succ_some ((h i).trans hp), chain_succ_some hp, chain_congr h fuel p]

/-- Under decreasing parent links every walk entry is at most the start. -/
theorem chain_le {st : List NodeData}
    (hW : ∀ j < st.length, ∀ p, (getN st j).parent = some p → p < j) :
    ∀ (fuel i : Nat), ∀ j ∈ chain st fuel i, j ≤ i
  | 0, i, j, hj => by simp [chain] at hj
  | fuel + 1, i, j, hj => by
    cases hp : (getN st i).parent with
    | none =>
      rw [chain_succ_none hp] at hj
      simp at hj
      exact le_of_eq hj
    | some p =>
      rw [chain_succ_some hp] at hj
      rcases List.mem_cons.mp hj with rfl | hj2
      · exact le_refl j
      · by_cases hi : i < st.length
        · exact le_trans (chain_le hW fuel p j hj2) (le_of_lt (hW i hi p hp))
        · rw [getN_out (by omega)] at hp
          simp [blankNode] at hp
    termination_by fuel i => fuel

/-- A positive-fuel walk starts at its own node. -/
theorem self_mem_chain (st : List NodeData) (fuel i : Nat) (h : 0 < fuel) :
    i ∈ chain st (fuel - 1 + 1) i := by
  rw [chain]
  exact List.mem_cons_self _ _

/-- With fuel above the start the walk is closed under parent links. -/
theorem chain_closed {st : List NodeData}
    (hW : ∀ j < st.length, ∀ p, (getN st j).parent = some p → p < j) :
    ∀ (fuel i : Nat), i < fuel → i < st.length →
      ∀ j ∈ chain st fuel i, ∀ p, (getN st j).parent = some p → p ∈ chain st fuel i
  | 0, i, hfi, _, j, hj, p, hp => by omega
  | fuel + 1, i, hfi, hil, j, hj, p, hp => by
    cases hip : (getN st i).parent with
    | none =>
      rw [chain_succ_none hip] at hj
      simp at hj
      subst hj
      rw [hip] at hp
      exact absurd hp (by simp)
    | some q =>
      rw [chain_succ_some hip] at hj ⊢
      rcases List.mem_cons.mp hj with rfl | hj2
      · rw [hip] at hp
        injection hp with hpq
        have hpj : q < j := hW j hil q hip
        have h0 : 0 < fuel := by omega
        have hmem := self_mem_chain st fuel q h0
        rw [Nat.sub_add_cancel h0] at hmem
        rw [← hpq]
        exact List.mem_cons_of_mem _ hmem
      · have hqi : q < i := hW i hil q hip
        exact List.mem_cons_of_mem _
          (chain_closed hW fuel q (by omega) (by omega) j hj2 p hp)
    termination_by fuel i => fuel

/-- Backpropagation bumps the walk's nodes once each and nothing else: its
full characterization. -/
theorem backprop_getN {st : List NodeData}
    (hW : ∀ j < st.length, ∀ p, (getN st j).parent = some p → p < j) :
    ∀ (fuel i r : Nat), i < st.length → ∀ j,
      getN (backpropagate st fuel i r) j =
        if j ∈ chain st fuel i then bump r (getN st j) else getN st j
  | 0, i, r, hi, j => by
    simp [backpropagate, chain]
  | fuel + 1, i, r, hi, j => by
    have hpar := parent_setN_bump st i r
    cases hp : (getN st i).parent with
    | none =>
      rw [backprop_succ_none hp, chain_succ_none hp]
      by_cases hij : j = i
      · subst hij
        rw [if_pos (List.mem_cons_self _ _), getN_setN_self _ hi]
      · rw [getN_setN_ne _ (fun h => hij h.symm), if_neg (by simp [hij])]
    | some p =>
      rw [backprop_succ_some hp, chain_succ_some hp]
      have hW' : ∀ k < (setN st i (bump r)).length, ∀ q,
          (getN (setN st i (bump r)) k).parent = some q → q < k := by
        intro k hk q hq
        rw [hpar k] at hq
        exact hW k (by rwa [length_setN] at hk) q hq
      have hpi : p < i := hW i hi p hp
      have ih := backprop_getN hW' fuel p r (by rw [length_setN]; omega) j
      rw [ih, chain_congr hpar fuel p]
      have hnotin : i ∉ chain st fuel p := by
        intro hmem
        exact absurd (chain_le hW fuel p i hmem) (by omega)
      by_cases hij : j = i
      · subst hij
        rw [if_neg hnotin, if_pos (List.mem_cons_self _ _), getN_setN_self _ hi]
      · rw [getN_setN_ne _ (fun h => hij h.symm)]
        by_cases hmem : j ∈ chain st fuel p
        · rw [if_pos hmem, if_pos (List.mem_cons_of_mem _ hmem)]
        · rw [if_neg hmem, if_neg (by simp [hij, hmem])]
    termination_by fuel i => fuel

/-- C10: backpropagation adds exactly one visit and exactly the binary
result to every node on the walk from the evaluated node to the root, and to
no other node; hand, board, scenario, parent and children of every node are
untouched. -/
theorem C10_backprop_frame (st : List NodeData) (i r : Nat)
    (hW : ∀ j < st.length, ∀ p, (getN st j).parent = some p → p < j)
    (hi : i < st.length) :
    (∀ j ∈ chain st st.length i,
      getN (backpropagate st st.length i r) j =
        { getN st j with
          visits := (getN st j).visits + 1, wins := (getN st j).wins + r }) ∧
    (∀ j, j ∉ chain st st.length i → getN (backpropagate st st.length i r) j = getN st j) ∧
    i ∈ chain st st.length i ∧
    (∀ j ∈ chain st st.length i, ∀ p, (getN st j).parent = some p →
      p ∈ chain st st.length i) ∧
    (∀ j, (getN (backpropagate st st.length i r) j).parent = (getN st j).parent ∧
      (getN (backpropagate st st.length i r) j).hand = (getN st j).hand ∧
      (getN (backpropagate st st.length i r) j).board = (getN st j).board ∧
      (getN (backpropagate st st.length i r) j).scenario = (getN st j).scenario ∧
      (getN (backpropagate st st.length i r) j).children = (getN st j).children) := by
  have hchar := backprop_getN hW st.length i r hi
  refine ⟨?_, ?_, ?_, ?_, ?_⟩
  · intro j hj
    rw [hchar j, if_pos hj]
    rfl
  · intro j hj
    rw [hchar j, if_neg hj]
  · have := self_mem_chain st st.length i (by omega)
    rwa [Nat.sub_add_cancel (by omega : 0 < st.length)] at this
  · exact chain_closed hW st.length i hi hi
  · intro j
    rw [hchar j]
    split <;> exact ⟨rfl, rfl, rfl, rfl, rfl⟩

/-- The two-node arena used by the C10 witness: a child under the root. -/
def parentChildArena : List NodeData :=
  [{ hand := [], board := [], parent := none, scenario := none,
     visits := 3, wins := 1, children := [((∅, ∅), 1)] },
   { hand := [], board := [], parent := some 0, scenario := some ([], []),
     visits := 2, wins := 1, children := [] }]

/-- Witness for C10 at the two-node arena, backpropagating a win from the
child: both nodes on the walk are bumped and all other fields survive. -/
theorem C10_backprop_frame_witness :
    (∀ j ∈ chain parentChildArena parentChildArena.length 1,
      getN (backpropagate parentChildArena parentChildArena.length 1 1) j =
        { getN parentChildArena j with
          visits := (getN parentChildArena j).visits + 1,
          wins := (getN parentChildArena j).wins + 1 }) ∧
    1 ∈ chain parentChildArena parentChildArena.length 1 ∧
    (∀ j, (getN (backpropagate parentChildArena parentChildArena.length 1 1) j).parent =
        (getN parentChildArena j).parent ∧
      (getN (backpropagate parentChildArena parentChildArena.length 1 1) j).hand =
        (getN parentChildArena j).hand ∧
      (getN (backpropagate parentChildArena parentChildArena.length 1 1) j).board =
        (getN parentChildArena j).board ∧
      (getN (backpropagate parentChildArena parentChildArena.length 1 1) j).scenario =
        (getN parentChildArena j).scenario ∧
      (getN (backpropagate parentChildArena parentChildArena.length 1 1) j).children =
        (getN parentChildArena j).children) := by
  have h := C10_backprop_frame parentChildArena 1 1 (by decide) (by decide)
  exact ⟨h.1, h.2.2.1, h.2.2.2.2⟩

/-! ## C9: the search invariant and the probability bound -/

/-- The invariant of search arenas: nonempty, parent links point strictly
down, child links point strictly up and stay in range, wins never exceed
visits, and a child is never visited more often than its parent. -/
def Inv (st : List NodeData) : Prop :=
  0 < st.length ∧
  (∀ j < st.length, ∀ p, (getN st j).parent = some p → p < j) ∧
  (∀ i < st.length, ∀ kv ∈ (getN st i).children, i < kv.2 ∧ kv.2 < st.length) ∧
  (∀ j, (getN st j).wins ≤ (getN st j).visits) ∧
  (∀ j p, (getN st j).parent = some p → (getN st j).visits ≤ (getN st p).visits)

/-- Selection stays inside the arena. -/
theorem select_lt {st : List NodeData} {c : ℝ}
    (hc : ∀ i < st.length, ∀ kv ∈ (getN st i).children, i < kv.2 ∧ kv.2 < st.length) :
    ∀ (fuel i : Nat), i < st.length → select st c fuel i < st.length
  | 0, i, hi => by
    rw [select]
    exact hi
  | fuel + 1, i, hi => by
    rw [select]
    split
    · exact hi
    · rename_i hne
      have hm := @select_child_mem st c i hne
      rcases List.mem_map.mp hm with ⟨kv, hkv, hkveq⟩
      have hlt := (hc i hi kv hkv).2
      exact select_lt hc fuel _ (hkveq ▸ hlt)

/-- Comparison outcomes are binary. -/
theorem simResult_le_one (cmp : List Card → List Card → List Card → Int)
    (hand board : List Card) (s : Scenario) : simResult cmp hand board s ≤ 1 := by
  unfold simResult
  split <;> omega

/-- Simulation results are binary. -/
theorem simulate_le_one (cmp : List Card → List Card → List Card → Int)
    (hand board : List Card) (nd : NodeData) (fresh : Option Scenario) :
    simulate cmp hand board nd fresh ≤ 1 := by
  unfold simulate
  split
  · exact simResult_le_one cmp hand board _
  · split
    · exact simResult_le_one cmp hand board _
    · omega

/-- The node appended by a fresh expansion. -/
def newChild (st : List NodeData) (i : Nat) (s : Scenario) : NodeData :=
  { hand := (getN st i).hand, board := (getN st i).board, parent := some i,
    scenario := some s, visits := 0, wins := 0, children := [] }

/-- Unfolding a fresh expansion. -/
theorem expand_fresh_eq {st : List NodeData} {i : Nat} {s : Scenario}
    (h : (getN st i).children.lookup (fingerprint s) = none) :
    expand st i (some s) =
      (setN st i (fun n =>
        { n with children := n.children ++ [(fingerprint s, st.length)] }) ++
        [newChild st i s], st.length) := by
  simp [expand, h, newChild]

/-- Reads after a fresh expansion. -/
theorem getN_expand_fresh {st : List NodeData} {i : Nat} {s : Scenario}
    (h : (getN st i).children.lookup (fingerprint s) = none) (hi : i < st.length)
    (j : Nat) :
    getN (expand st i (some s)).1 j =
      if j = st.length then newChild st i s
      else if j = i then
        { getN st i with
          children := (getN st i).children ++ [(fingerprint s, st.length)] }
      else getN st j := by
  set f : NodeData → NodeData := fun n =>
    { n with children := n.children ++ [(fingerprint s, st.length)] } with hf
  have hlen : (setN st i f).length = st.length := length_setN st i f
  rw [expand_fresh_eq h]
  by_cases hjl : j = st.length
  · subst hjl
    rw [if_pos rfl]
    have := getN_append_self (setN st i f) (newChild st i s)
    rwa [hlen] at this
  · rw [if_neg hjl]
    by_cases hji : j = i
    · rw [if_pos hji, hji,
        getN_append_lt _ _ (show i < (setN st i f).length by rw [hlen]; exact hi),
        getN_setN_self f hi]
    · rw [if_neg hji]
      by_cases hjlt : j < st.length
      · rw [getN_append_lt _ _ (show j < (setN st i f).length by rw [hlen]; exact hjlt),
          getN_setN_ne f (fun hh => hji hh.symm)]
      · rw [getN_out (show (setN st i f ++ [newChild st i s]).length ≤ j by
          simp only [List.length_append, hlen, List.length_singleton]; omega),
          getN_out (by omega)]

/-- The length of an expansion's arena. -/
theorem expand_length {st : List NodeData} {i : Nat} (sc : Option Scenario) :
    (expand st i sc).1.length = st.length ∨
      (expand st i sc).1.length = st.length + 1 := by
  rcases sc with _ | s
  · exact Or.inl rfl
  · cases h : (getN st i).children.lookup (fingerprint s) with
    | some j => exact Or.inl (by simp [expand, h])
    | none =>
      right
      rw [expand_fresh_eq h]
      simp [length_setN]
/-- Expansion preserves the invariant and descends to an in-range node. -/
theorem inv_expand {st : List NodeData} (hInv : Inv st) {i : Nat}
    (hi : i < st.length) (sc : Option Scenario) :
    Inv (expand st i sc).1 ∧ (expand st i sc).2 < (expand st i sc).1.length := by
  obtain ⟨hpos, hpar, hch, hwv, hcp⟩ := hInv
  rcases sc with _ | s
  · exact ⟨⟨hpos, hpar, hch, hwv, hcp⟩, hi⟩
  · cases h : (getN st i).children.lookup (fingerprint s) with
    | some j =>
      have hj : j < st.length := (hch i hi _ (lookup_mem _ _ _ h)).2
      have he : expand st i (some s) = (st, j) := by simp [expand, h]
      rw [he]
      exact ⟨⟨hpos, hpar, hch, hwv, hcp⟩, hj⟩
    | none =>
      have hg := getN_expand_fresh h hi
      have hl : (expand st i (some s)).1.length = st.length + 1 := by
        rw [expand_fresh_eq h]
        simp [length_setN]
      have hsnd : (expand st i (some s)).2 = st.length := by
        rw [expand_fresh_eq h]
      refine ⟨⟨by omega, ?_, ?_, ?_, ?_⟩, by omega⟩
      · intro j hj p hp
        rw [hg j] at hp
        by_cases hjl : j = st.length
        · rw [if_pos hjl] at hp
          simp only [newChild] at hp
          injection hp with hp
          omega
        · rw [if_neg hjl] at hp
          by_cases hji : j = i
          · rw [if_pos hji] at hp
            rw [hji]
            exact hpar i hi p hp
          · rw [if_neg hji] at hp
            by_cases hjlt : j < st.length
            · exact hpar j hjlt p hp
            · rw [getN_out (by omega)] at hp
              simp [blankNode] at hp
      · intro k hk kv hkv
        rw [hg k] at hkv
        rw [hl]
        by_cases hkl : k = st.length
        · rw [if_pos hkl] at hkv
          simp [newChild] at hkv
        · rw [if_neg hkl] at hkv
          by_cases hki : k = i
          · rw [if_pos hki] at hkv
            simp only [List.mem_append, List.mem_singleton] at hkv
            rcases hkv with hkv | hkv
            · have hb := hch i hi kv hkv
              omega
            · subst hkv
              refine ⟨?_, ?_⟩
              · show k < st.length
                omega
              · show st.length < st.length + 1
                omega
          · rw [if_neg hki] at hkv
            by_cases hklt : k < st.length
            · have hb := hch k hklt kv hkv
              omega
            · rw [getN_out (by omega)] at hkv
              simp [blankNode] at hkv
      · intro j
        rw [hg j]
        by_cases hjl : j = st.length
        · rw [if_pos hjl]
          exact Nat.le_refl _
        · rw [if_neg hjl]
          by_cases hji : j = i
          · rw [if_pos hji]
            exact hwv i
          · rw [if_neg hji]
            exact hwv j
      · intro j p hp
        rw [hg j] at hp ⊢
        rw [hg p]
        by_cases hjl : j = st.length
        · rw [if_pos hjl] at hp ⊢
          simp only [newChild] at hp ⊢
          injection hp with hp
          rw [if_neg (by omega), if_pos hp.symm]
          exact Nat.zero_le _
        · rw [if_neg hjl] at hp ⊢
          by_cases hji : j = i
          · rw [if_pos hji] at hp ⊢
            have hplt : p < i := hpar i hi p hp
            rw [if_neg (by omega), if_neg (by omega)]
            exact hcp i p hp
          · rw [if_neg hji] at hp ⊢
            by_cases hjlt : j < st.length
            · have hplt : p < j := hpar j hjlt p hp
              rw [if_neg (by omega)]
              by_cases hpi : p = i
              · rw [if_pos hpi]
                exact hpi ▸ hcp j p hp
              · rw [if_neg hpi]
                exact hcp j p hp
            · rw [getN_out (by omega)] at hp
              simp [blankNode] at hp
/-- Backpropagation keeps the arena's size. -/
theorem backprop_length : ∀ (st : List NodeData) (fuel i r : Nat),
    (backpropagate st fuel i r).length = st.length
  | st, 0, i, r => rfl
  | st, fuel + 1, i, r => by
    cases hp : (getN st i).parent with
    | none => rw [backprop_succ_none hp, length_setN]
    | some p => rw [backprop_succ_some hp, backprop_length _ fuel p r, length_setN]

/-- Backpropagation with full fuel preserves the invariant. -/
theorem inv_backprop {st : List NodeData} (hInv : Inv st) {i r : Nat}
    (hi : i < st.length) (hr : r ≤ 1) :
    Inv (backpropagate st st.length i r) := by
  obtain ⟨hpos, hpar, hch, hwv, hcp⟩ := hInv
  have hchar := backprop_getN hpar st.length i r hi
  have hcl := chain_closed hpar st.length i hi hi
  have hlen := backprop_length st st.length i r
  refine ⟨by omega, ?_, ?_, ?_, ?_⟩
  · intro j hj p hp
    rw [hchar j] at hp
    split at hp <;> exact hpar j (by omega) p hp
  · intro k hk kv hkv
    rw [hchar k] at hkv
    rw [hlen]
    split at hkv
    · exact hch k (by omega) kv hkv
    · exact hch k (by omega) kv hkv
  · intro j
    rw [hchar j]
    split
    · simp only [bump]
      have := hwv j
      omega
    · exact hwv j
  · intro j p hp
    have hpj : (getN st j).parent = some p := by
      rw [hchar j] at hp
      split at hp <;> exact hp
    rw [hchar j, hchar p]
    by_cases hmem : j ∈ chain st st.length i
    · rw [if_pos hmem, if_pos (hcl j hmem p hpj)]
      simp only [bump]
      have := hcp j p hpj
      omega
    · rw [if_neg hmem]
      split
      · simp only [bump]
        have := hcp j p hpj
        omega
      · exact hcp j p hpj

/-- One search iteration preserves the invariant. -/
theorem inv_searchIteration {st : List NodeData} (hInv : Inv st)
    (cmp : List Card → List Card → List Card → Int) (hand board : List Card)
    (scExp scSim : Option Scenario) :
    Inv (searchIteration cmp hand board scExp scSim st) := by
  simp only [searchIteration]
  have hleaf : select st defaultC st.length 0 < st.length :=
    select_lt hInv.2.2.1 st.length 0 hInv.1
  by_cases hv : 0 < (getN st (select st defaultC st.length 0)).visits
  · rw [if_pos hv]
    obtain ⟨hinv', hlt⟩ := inv_expand hInv hleaf scExp
    exact inv_backprop hinv' hlt (simulate_le_one cmp hand board _ scSim)
  · rw [if_neg hv]
    exact inv_backprop hInv hleaf (simulate_le_one cmp hand board _ scSim)

/-- Any number of iterations preserves the invariant. -/
theorem inv_searchN (cmp : List Card → List Card → List Card → Int)
    (hand board : List Card) (oracle : Nat → Option Scenario × Option Scenario) :
    ∀ (n : Nat) (st : List NodeData), Inv st → Inv (searchN cmp hand board oracle n st)
  | 0, st, h => h
  | n + 1, st, h =>
    inv_searchN cmp hand board oracle n _
      (inv_searchIteration h cmp hand board (oracle n).1 (oracle n).2)

/-- The fresh root arena satisfies the invariant. -/
theorem inv_init (hand board : List Card) : Inv (initState hand board) := by
  refine ⟨by simp [initState], ?_, ?_, ?_, ?_⟩
  · intro j hj p hp
    simp [initState] at hj
    subst hj
    simp [initState, getN] at hp
  · intro i hi kv hkv
    simp [initState] at hi
    subst hi
    simp [initState, getN] at hkv
  · intro j
    match j with
    | 0 => exact le_refl _
    | k + 1 =>
      rw [getN_out (by simp [initState])]
      decide
  · intro j p hp
    match j with
    | 0 => simp [initState, getN] at hp
    | k + 1 =>
      rw [getN_out (by simp [initState])] at hp
      simp [blankNode] at hp

/-- C9: a completed search's probability lies in the unit interval; the
invariant behind it (wins bounded by visits and child visits bounded by
parent visits, from creation through every iteration) holds of the final
arena. -/
theorem C9_probability_bound (cmp : List Card → List Card → List Card → Int)
    (hand board : List Card) (oracle : Nat → Option Scenario × Option Scenario)
    (n : Nat) :
    Inv (searchN cmp hand board oracle n (initState hand board)) ∧
    0 ≤ winProb (searchN cmp hand board oracle n (initState hand board)) ∧
    winProb (searchN cmp hand board oracle n (initState hand board)) ≤ 1 := by
  have hInv := inv_searchN cmp hand board oracle n _ (inv_init hand board)
  refine ⟨hInv, ?_, ?_⟩
  · unfold winProb
    split
    · positivity
    · exact le_refl 0
  · unfold winProb
    split
    · rename_i hv
      rw [div_le_one (by exact_mod_cast hv)]
      exact_mod_cast hInv.2.2.2.1 0
    · exact zero_le_one

/-- Witness for C9 at the empty search: the fresh arena satisfies the
invariant and its probability is within bounds. -/
theorem C9_probability_bound_witness :
    Inv (searchN (fun _ _ _ => 0) [] [] (fun _ => (none, none)) 0 (initState [] [])) ∧
    0 ≤ winProb (searchN (fun _ _ _ => 0) [] [] (fun _ => (none, none)) 0 (initState [] [])) ∧
    winProb (searchN (fun _ _ _ => 0) [] [] (fun _ => (none, none)) 0 (initState [] [])) ≤ 1 :=
  C9_probability_bound (fun _ _ _ => 0) [] [] (fun _ => (none, none)) 0

end Poker
